import Mathlib

/-!
Verification of the video-assembly core of `generate_and_upload.py`
(function `assemble_video` and its helpers).

Modelling conventions:
* durations are rationals (`ℚ`);
* a visual or audio track is the list of its constituent source durations,
  the track's duration being the list sum (moviepy concatenation);
* `subclip(0, t)` on a clip of duration `d` yields duration `min d t`;
* per-source load failures (exceptions) are modelled by a Boolean on the
  candidate source.
Every definition mirrors one definite place in the source; line references
are given in the doc comments.
-/

namespace AutoVideoBot

/-- Module-level config constant `TARGET_DURATION = 300`. -/
def TARGET_DURATION : ℤ := 300

/-- Module-level config constant
`FINAL_VIDEO = os.path.join(OUTPUT_DIR, "final_video.mp4")`. -/
def FINAL_VIDEO : String := "outputs/final_video.mp4"

/-- A candidate visual source: whether `VideoFileClip(p).resize(...)` succeeds
(no exception), and the duration the loaded clip reports. -/
structure Clip where
  loads : Bool
  duration : ℚ
  deriving DecidableEq

/-- The per-source loading loop of `assemble_video`: a source is kept when it
loads without exception and its duration is not below 1 s
(`if clip.duration < 1: continue`); otherwise it is skipped. -/
def load_video_clips (clips_paths : List Clip) : List ℚ :=
  clips_paths.filterMap fun c =>
    if c.loads ∧ 1 ≤ c.duration then some c.duration else none

/-- `num_slides = 6` in the synthetic-slide fallback branch. -/
def num_slides : ℕ := 6

/-- `slide_dur = math.ceil(target_duration / num_slides)`. -/
def slide_dur (target_duration : ℤ) : ℤ :=
  ⌈(target_duration : ℚ) / (num_slides : ℚ)⌉

/-- The fallback branch `if not video_clips:` builds `num_slides` text slides,
each of duration `slide_dur`. -/
def fallback_slides (target_duration : ℤ) : List ℚ :=
  List.replicate num_slides ((slide_dur target_duration : ℤ) : ℚ)

/-- The list of visual clips that reaches concatenation: the loaded clips, or
the synthetic slides when no clip loaded. -/
def effective_video_clips (clips_paths : List Clip) (target_duration : ℤ) :
    List ℚ :=
  if load_video_clips clips_paths = [] then fallback_slides target_duration
  else load_video_clips clips_paths

/-- The list passed to the second `concatenate_videoclips` call in the
`except` branch: `video_clips[: max(1, len(video_clips))]`. -/
def retry_video_clips (video_clips : List ℚ) : List ℚ :=
  video_clips.take (max 1 video_clips.length)

/-- Outcome of the concatenation step: a concatenated track, or an exception
escaping `assemble_video`. -/
inductive ConcatResult where
  | ok (track : List ℚ)
  | error
  deriving DecidableEq

/-- The `try/except` around `concatenate_videoclips`: on failure, the call is
retried once with `retry_video_clips`; a failure of the retry is not caught.
`concat_fails s` abstracts whether `concatenate_videoclips` raises on the
source list `s`. -/
def concatenate_with_retry (concat_fails : List ℚ → Bool)
    (video_clips : List ℚ) : ConcatResult :=
  if concat_fails video_clips then
    if concat_fails (retry_video_clips video_clips) then ConcatResult.error
    else ConcatResult.ok (retry_video_clips video_clips)
  else ConcatResult.ok video_clips

/-- `loops = math.ceil(narration_length / concatenated.duration)` when the
concatenated track is shorter than the narration; no looping otherwise. -/
def loop_count (available required : ℚ) : ℤ :=
  if available < required then ⌈required / available⌉ else 1

/-- `concatenate_videoclips([concatenated] * loops)`: the entire concatenated
track repeated `loops` times when it is shorter than the narration, the track
unchanged otherwise. -/
def looped_track (track : List ℚ) (required : ℚ) : List ℚ :=
  if track.sum < required then
    (List.replicate (⌈required / track.sum⌉).toNat track).flatten
  else track

/-- Duration of `video_final = concatenated.subclip(0, min(concatenated.duration,
narration_length))`. -/
def final_video_duration (track : List ℚ) (required : ℚ) : ℚ :=
  min (looped_track track required).sum required

/-- `volumex(0.15)` attenuation applied to the background music. -/
def music_volume : ℚ := 15 / 100

/-- Duration of the background-music layer after the reconciliation branch:
if shorter than the narration it is concatenated with itself
`math.ceil(narration / bg)` times and `subclip(0, narration)` is taken;
otherwise only `subclip(0, narration)` is taken. -/
def bg_music_duration (music_duration narration_duration : ℚ) : ℚ :=
  if music_duration < narration_duration then
    min (List.replicate (⌈narration_duration / music_duration⌉).toNat
          music_duration).sum narration_duration
  else min music_duration narration_duration

/-- The background-music asset: whether `os.path.exists(MUSIC_PATH)` holds,
whether `AudioFileClip(MUSIC_PATH)` (and the subsequent processing) succeeds,
and the duration the loaded clip reports. -/
structure MusicAsset where
  present : Bool
  loads : Bool
  duration : ℚ
  deriving DecidableEq

/-- One layer of the composite audio: the narration, or the attenuated
background music. -/
inductive AudioLayer where
  | narration (duration : ℚ)
  | music (duration : ℚ) (volume : ℚ)
  deriving DecidableEq

/-- Duration of an audio layer. -/
def AudioLayer.duration : AudioLayer → ℚ
  | .narration d => d
  | .music d _ => d

/-- The `audio_clips` list handed to `CompositeAudioClip`: always the
narration; plus the reconciled, attenuated music layer when the music file
exists and loads. -/
def audio_layers (music : MusicAsset) (narration_duration : ℚ) :
    List AudioLayer :=
  if music.present ∧ music.loads then
    [AudioLayer.narration narration_duration,
     AudioLayer.music (bg_music_duration music.duration narration_duration)
       music_volume]
  else [AudioLayer.narration narration_duration]

/-- Duration of `CompositeAudioClip(audio_clips)` before `set_duration`:
the maximum of the layer durations. -/
def composite_audio_duration (layers : List AudioLayer) : ℚ :=
  (layers.map AudioLayer.duration).foldr max 0

/-- Duration of `CompositeAudioClip(audio_clips).set_duration(narration_audio.duration)`. -/
def final_audio_duration (narration_duration : ℚ) : ℚ := narration_duration

/-- `approx_words_per_caption = 30`. -/
def approx_words_per_caption : ℕ := 30

/-- The slice bound in `for cap in captions[:40]`. -/
def caption_cap : ℕ := 40

/-- `captions = [" ".join(words[i:i+approx_words_per_caption]) for i in
range(0, len(words), approx_words_per_caption)]`, keeping each chunk as its
word list. -/
def captions (words : List String) : List (List String) :=
  (List.range
      ((words.length + (approx_words_per_caption - 1)) /
        approx_words_per_caption)).map
    fun k => (words.drop (k * approx_words_per_caption)).take
        approx_words_per_caption

/-- `cap_dur = max(3, narration_audio.duration / max(1, len(captions)))`. -/
def cap_dur (narration_duration : ℚ) (caption_count : ℕ) : ℚ :=
  max 3 (narration_duration / ((max 1 caption_count : ℕ) : ℚ))

/-- A timed caption overlay: text chunk, start offset, duration. -/
structure CaptionWindow where
  text : List String
  start : ℚ
  duration : ℚ
  deriving DecidableEq

/-- The `caption_clips` loop: the first `caption_cap` chunks become windows of
duration `cap_dur`, laid out back to back from `cap_start = 0`. -/
def caption_clips (words : List String) (narration_duration : ℚ) :
    List CaptionWindow :=
  let caps := captions words
  let d := cap_dur narration_duration caps.length
  (caps.take caption_cap).enum.map
    fun p => { text := p.2, start := (p.1 : ℚ) * d, duration := d }

/-- The final `write_videofile` call: destination path and the keyword
arguments that concern file handling. -/
structure WriteCall where
  target : String
  fps : ℕ
  codec : String
  audio_codec : String
  temp_audiofile : String
  remove_temp : Bool
  deriving DecidableEq

/-- `video_with_captions.write_videofile(output_path, fps=24, codec="libx264",
audio_codec="aac", threads=2, temp_audiofile="temp-audio.m4a",
remove_temp=True)`. -/
def write_videofile_call (output_path : String) : WriteCall :=
  { target := output_path
    fps := 24
    codec := "libx264"
    audio_codec := "aac"
    temp_audiofile := "temp-audio.m4a"
    remove_temp := true }

/-- Modelled from the spec: the claim that the artifact is encoded to a
temporary path distinct from the final path (and promoted only on success)
requires at least that the encode call's destination differ from the final
path. -/
def writes_via_temp_then_move (c : WriteCall) (final_path : String) : Prop :=
  c.target ≠ final_path

/-! ## Helper lemmas -/

/-- Multiplying the ceiling of `r / a` back by a positive `a` reaches `r`. -/
theorem le_ceil_mul (a r : ℚ) (ha : 0 < a) : r ≤ (⌈r / a⌉ : ℚ) * a := by
  have h := Int.le_ceil (r / a)
  calc r = r / a * a := by field_simp
    _ ≤ (⌈r / a⌉ : ℚ) * a := mul_le_mul_of_nonneg_right h (le_of_lt ha)

/-- Sum of a list repeated `n` times. -/
theorem sum_flatten_replicate (n : ℕ) (l : List ℚ) :
    ((List.replicate n l).flatten).sum = (n : ℚ) * l.sum := by
  induction n with
  | zero => simp
  | succ k ih =>
      simp only [List.replicate_succ, List.flatten_cons, List.sum_append, ih]
      push_cast
      ring

/-- For positive `a` and `r` the ceiling of `r / a` survives `Int.toNat`. -/
theorem ceil_toNat_cast (a r : ℚ) (ha : 0 < a) (hr : 0 < r) :
    ((⌈r / a⌉.toNat : ℕ) : ℚ) = (⌈r / a⌉ : ℚ) := by
  have h : 0 ≤ ⌈r / a⌉ := le_of_lt (Int.ceil_pos.mpr (div_pos hr ha))
  exact_mod_cast congrArg (fun z : ℤ => (z : ℚ)) (Int.toNat_of_nonneg h)

/-! ## Claim theorems -/

/-- Claim C1: for a concatenated visual track of positive duration and a
positive narration duration, the reconciled track has duration exactly the
narration duration; when the track is shorter than the narration the entire
track is repeated `ceil(required/available)` times and then trimmed from its
start, and when it is at least as long the loop count is 1 and the track is
only trimmed, never padded. -/
theorem C1_duration_reconciler (track : List ℚ) (required : ℚ)
    (ha : 0 < track.sum) (hr : 0 < required) :
    final_video_duration track required = required ∧
    (track.sum < required →
      loop_count track.sum required = ⌈required / track.sum⌉ ∧
      looped_track track required
        = (List.replicate (⌈required / track.sum⌉).toNat track).flatten) ∧
    (required ≤ track.sum →
      loop_count track.sum required = 1 ∧
      looped_track track required = track ∧
      final_video_duration track required ≤ track.sum) := by
  have key : required ≤ (looped_track track required).sum := by
    unfold looped_track
    by_cases h : track.sum < required
    · rw [if_pos h, sum_flatten_replicate,
        ceil_toNat_cast track.sum required ha hr]
      exact le_ceil_mul track.sum required ha
    · rw [if_neg h]
      exact le_of_not_lt h
  refine ⟨min_eq_right key, fun h => ⟨?_, ?_⟩, fun h => ⟨?_, ?_, ?_⟩⟩
  · unfold loop_count
    rw [if_pos h]
  · unfold looped_track
    rw [if_pos h]
  · unfold loop_count
    rw [if_neg (not_lt.mpr h)]
  · unfold looped_track
    rw [if_neg (not_lt.mpr h)]
  · unfold final_video_duration looped_track
    rw [if_neg (not_lt.mpr h)]
    exact min_le_left _ _

/-- Witness for C1 at the spec's own scenario: one 60 s source and a 300 s
narration. -/
theorem C1_duration_reconciler_witness :
    0 < ([(60 : ℚ)]).sum ∧ (0 : ℚ) < 300 ∧
    final_video_duration [(60 : ℚ)] 300 = 300 :=
  ⟨by norm_num, by norm_num,
    (C1_duration_reconciler [(60 : ℚ)] 300 (by norm_num) (by norm_num)).1⟩

/-- Claim C3 counterexample: with two loaded sources of durations 2 and 3 and
a concatenation that always fails, the retry list equals the full original
list (the last-loaded source is not dropped) and the failure escapes as an
error instead of falling back to synthetic slides. -/
theorem C3_retry_counterexample :
    retry_video_clips [2, 3] = [2, 3] ∧
    retry_video_clips [2, 3] ≠ ([2, 3] : List ℚ).dropLast ∧
    concatenate_with_retry (fun _ => true) [2, 3] = ConcatResult.error := by
  decide

/-- Claim C3 amended: if concatenation fails, the builder retries once with
the slice `video_clips[:max(1, len(video_clips))]`, which is the entire
original list (no source is dropped); if the retry also fails, the error
propagates and there is no synthetic-slide fallback at this stage. -/
theorem C3_retry_keeps_all_sources (video_clips : List ℚ)
    (f : List ℚ → Bool) (h : video_clips ≠ []) :
    retry_video_clips video_clips = video_clips ∧
    (f video_clips = true → f (retry_video_clips video_clips) = true →
      concatenate_with_retry f video_clips = ConcatResult.error) := by
  have hid : retry_video_clips video_clips = video_clips := by
    unfold retry_video_clips
    exact List.take_of_length_le (le_max_right 1 _)
  refine ⟨hid, fun h1 h2 => ?_⟩
  unfold concatenate_with_retry
  rw [h1, h2]
  rfl

/-- Witness for C3's amended statement at the concrete input of the
counterexample scenario. -/
theorem C3_retry_keeps_all_sources_witness :
    ([2, 3] : List ℚ) ≠ [] ∧
    retry_video_clips [2, 3] = [2, 3] ∧
    concatenate_with_retry (fun _ => true) [2, 3] = ConcatResult.error := by
  have h := C3_retry_keeps_all_sources [2, 3] (fun _ => true) (by simp)
  exact ⟨by simp, h.1, h.2 rfl rfl⟩

/-- Claim C4 counterexample: the final `write_videofile` call targets the
final output path itself, so the artifact is not written to a temporary path
distinct from the target and moved there on success. -/
theorem C4_no_temp_then_move :
    ¬ writes_via_temp_then_move (write_videofile_call FINAL_VIDEO)
        FINAL_VIDEO := by
  unfold writes_via_temp_then_move write_videofile_call
  simp

/-- Claim C4 amended: the video is encoded directly to the caller-specified
output path; only the intermediate audio uses a temporary file
(`temp-audio.m4a`, removed afterwards), and no temp-then-move step exists for
the video artifact, so a failed encode can leave a partial file at the target
path. -/
theorem C4_write_targets_output_path (output_path : String) :
    (write_videofile_call output_path).target = output_path ∧
    (write_videofile_call output_path).temp_audiofile = "temp-audio.m4a" ∧
    (write_videofile_call output_path).remove_temp = true :=
  ⟨rfl, rfl, rfl⟩

/-- Every duration kept by the loading loop is at least 1 s. -/
theorem one_le_of_mem_load (clips_paths : List Clip) :
    ∀ d ∈ load_video_clips clips_paths, 1 ≤ d := by
  intro d hd
  simp only [load_video_clips, List.mem_filterMap] at hd
  obtain ⟨c, _hc, hsome⟩ := hd
  by_cases hcond : c.loads ∧ 1 ≤ c.duration
  · rw [if_pos hcond] at hsome
    obtain rfl : c.duration = d := Option.some.inj hsome
    exact hcond.2
  · rw [if_neg hcond] at hsome
    exact Option.noConfusion hsome

/-- The sum of the synthetic slides. -/
theorem fallback_slides_sum (t : ℤ) :
    (fallback_slides t).sum = (num_slides : ℚ) * ((slide_dur t : ℤ) : ℚ) := by
  simp [fallback_slides, List.sum_replicate, nsmul_eq_mul]

/-- Claim C6: when zero visual sources load, the builder produces exactly the
policy number (6) of synthetic slides of equal duration
`ceil(target_duration/6)`, totalling at least `target_duration`; for
`target_duration = 300` this is 6 slides of 50 s summing to 300 s, and the
reconciled final track is trimmed to the required 300 s. -/
theorem C6_fallback_slides (clips_paths : List Clip) (target_duration : ℤ)
    (h : load_video_clips clips_paths = []) (ht : 0 < target_duration) :
    effective_video_clips clips_paths target_duration
      = fallback_slides target_duration ∧
    (effective_video_clips clips_paths target_duration).length = num_slides ∧
    (∀ d ∈ effective_video_clips clips_paths target_duration,
      d = ((slide_dur target_duration : ℤ) : ℚ)) ∧
    (target_duration : ℚ)
      ≤ (effective_video_clips clips_paths target_duration).sum ∧
    (effective_video_clips clips_paths 300).sum = 300 ∧
    final_video_duration (effective_video_clips clips_paths 300) 300 = 300 := by
  have he : ∀ t : ℤ, effective_video_clips clips_paths t = fallback_slides t := by
    intro t
    unfold effective_video_clips
    rw [if_pos h]
  have h300 : (fallback_slides 300).sum = 300 := by
    rw [fallback_slides_sum]
    norm_num [slide_dur, num_slides]
  refine ⟨he _, ?_, ?_, ?_, ?_, ?_⟩
  · rw [he]
    simp [fallback_slides]
  · rw [he]
    intro d hd
    exact (List.eq_of_mem_replicate hd)
  · rw [he, fallback_slides_sum]
    have hle := le_ceil_mul ((num_slides : ℕ) : ℚ) (target_duration : ℚ)
      (by norm_num [num_slides])
    calc (target_duration : ℚ)
        ≤ (⌈(target_duration : ℚ) / ((num_slides : ℕ) : ℚ)⌉ : ℚ)
            * ((num_slides : ℕ) : ℚ) := hle
      _ = (num_slides : ℚ) * ((slide_dur target_duration : ℤ) : ℚ) := by
          rw [mul_comm]
          rfl
  · rw [he]
    exact h300
  · rw [he]
    unfold final_video_duration looped_track
    rw [if_neg (by rw [h300]; exact lt_irrefl 300)]
    rw [h300]
    exact min_self 300

/-- Witness for C6 with an empty source list and the default 300 s target. -/
theorem C6_fallback_slides_witness :
    load_video_clips [] = [] ∧ (0 : ℤ) < 300 ∧
    (effective_video_clips [] 300).sum = 300 :=
  ⟨rfl, by decide, (C6_fallback_slides [] 300 rfl (by decide)).2.2.2.2.1⟩

/-- Claim C8: for a positive target duration, by the time the loop-count
division runs the concatenated source list is nonempty with strictly positive
total duration — every loaded clip contributes at least 1 s, and otherwise
the fallback slides have positive duration — so an `available_duration` of
zero is unreachable. -/
theorem C8_available_duration_positive (clips_paths : List Clip)
    (target_duration : ℤ) (ht : 0 < target_duration) :
    0 < (effective_video_clips clips_paths target_duration).sum ∧
    effective_video_clips clips_paths target_duration ≠ [] ∧
    (∀ d ∈ load_video_clips clips_paths, 1 ≤ d) ∧
    (load_video_clips clips_paths = [] →
      ∀ d ∈ effective_video_clips clips_paths target_duration, 0 < d) := by
  have hslide : (0 : ℚ) < ((slide_dur target_duration : ℤ) : ℚ) := by
    have : (0 : ℤ) < slide_dur target_duration := by
      unfold slide_dur
      exact Int.ceil_pos.mpr
        (div_pos (by exact_mod_cast ht) (by norm_num [num_slides]))
    exact_mod_cast this
  by_cases h : load_video_clips clips_paths = []
  · have he : effective_video_clips clips_paths target_duration
        = fallback_slides target_duration := by
      unfold effective_video_clips
      rw [if_pos h]
    refine ⟨?_, ?_, one_le_of_mem_load clips_paths, ?_⟩
    · rw [he, fallback_slides_sum]
      exact mul_pos (by norm_num [num_slides]) hslide
    · rw [he]
      simp [fallback_slides, num_slides]
    · intro _ d hd
      rw [he] at hd
      rw [List.eq_of_mem_replicate hd]
      exact hslide
  · have he : effective_video_clips clips_paths target_duration
        = load_video_clips clips_paths := by
      unfold effective_video_clips
      rw [if_neg h]
    obtain ⟨a, ha⟩ := List.exists_mem_of_ne_nil _ h
    have hnn : ∀ x ∈ load_video_clips clips_paths, (0 : ℚ) ≤ x :=
      fun x hx => le_trans zero_le_one (one_le_of_mem_load clips_paths x hx)
    refine ⟨?_, ?_, one_le_of_mem_load clips_paths, fun hc => absurd hc h⟩
    · rw [he]
      calc (0 : ℚ) < 1 := zero_lt_one
        _ ≤ a := one_le_of_mem_load clips_paths a ha
        _ ≤ (load_video_clips clips_paths).sum := List.single_le_sum hnn a ha
    · rw [he]
      exact h

/-- Witness for C8 with an empty source list and the default 300 s target. -/
theorem C8_available_duration_positive_witness :
    (0 : ℤ) < 300 ∧ 0 < (effective_video_clips [] 300).sum :=
  ⟨by decide, (C8_available_duration_positive [] 300 (by decide)).1⟩

/-- Claim C10: a source that loads but reports a duration below 1 s is
skipped exactly like an unreadable source, and an input list consisting only
of sub-second clips leaves zero loaded sources, triggering the
synthetic-slide fallback. -/
theorem C10_sub_second_clips_skipped (clips_paths : List Clip)
    (target_duration : ℤ) (h : ∀ c ∈ clips_paths, c.duration < 1) :
    load_video_clips clips_paths = [] ∧
    effective_video_clips clips_paths target_duration
      = fallback_slides target_duration ∧
    (∀ c : Clip, ∀ rest : List Clip, c.duration < 1 →
      load_video_clips (c :: rest) = load_video_clips rest) := by
  have hskip : ∀ c : Clip, ∀ rest : List Clip, c.duration < 1 →
      load_video_clips (c :: rest) = load_video_clips rest := by
    intro c rest hc
    have hnone : (if c.loads ∧ 1 ≤ c.duration then some c.duration else none)
        = none := if_neg fun hcond => absurd hcond.2 (not_le.mpr hc)
    simp [load_video_clips, List.filterMap_cons, hnone]
  have hnil : load_video_clips clips_paths = [] := by
    induction clips_paths with
    | nil => rfl
    | cons c rest ih =>
        rw [hskip c rest (h c (List.mem_cons_self c rest))]
        exact ih fun x hx => h x (List.mem_cons_of_mem c hx)
  refine ⟨hnil, ?_, hskip⟩
  unfold effective_video_clips
  rw [if_pos hnil]

/-- Witness for C10 with a single half-second clip that loads successfully. -/
theorem C10_sub_second_clips_skipped_witness :
    (∀ c ∈ [Clip.mk true (1 / 2)], c.duration < 1) ∧
    load_video_clips [Clip.mk true (1 / 2)] = [] ∧
    effective_video_clips [Clip.mk true (1 / 2)] 300 = fallback_slides 300 := by
  have h : ∀ c ∈ [Clip.mk true (1 / 2)], c.duration < 1 := by
    intro c hc
    rw [List.mem_singleton] at hc
    rw [hc]
    norm_num [Clip.duration]
  exact ⟨h, (C10_sub_second_clips_skipped _ 300 h).1,
    (C10_sub_second_clips_skipped _ 300 h).2.1⟩

/-- Claim C5: for every positive music duration — shorter than, equal to, or
longer than the narration — the reconciled music layer has exactly the
narration's duration (looped `ceil(narration/music)` times then trimmed when
shorter, trimmed when not), the music layer carries the 0.15 attenuation, and
the composite audio clamped by `set_duration` has exactly the narration's
duration. -/
theorem C5_audio_duration (music : MusicAsset) (narration_duration : ℚ)
    (hm : 0 < music.duration) (hn : 0 < narration_duration) :
    bg_music_duration music.duration narration_duration
      = narration_duration ∧
    final_audio_duration narration_duration = narration_duration ∧
    composite_audio_duration (audio_layers music narration_duration)
      = narration_duration ∧
    (music.present = true → music.loads = true →
      audio_layers music narration_duration
        = [AudioLayer.narration narration_duration,
           AudioLayer.music narration_duration music_volume]) := by
  have hbg : bg_music_duration music.duration narration_duration
      = narration_duration := by
    unfold bg_music_duration
    by_cases h : music.duration < narration_duration
    · rw [if_pos h, List.sum_replicate, nsmul_eq_mul,
        ceil_toNat_cast _ _ hm hn]
      exact min_eq_right (le_ceil_mul music.duration narration_duration hm)
    · rw [if_neg h]
      exact min_eq_right (le_of_not_lt h)
  have hmax : max narration_duration 0 = narration_duration :=
    max_eq_left (le_of_lt hn)
  refine ⟨hbg, rfl, ?_, ?_⟩
  · unfold composite_audio_duration audio_layers
    by_cases h : music.present ∧ music.loads
    · rw [if_pos h]
      simp only [List.map_cons, List.map_nil, List.foldr_cons, List.foldr_nil,
        AudioLayer.duration, hbg, hmax, max_self]
    · rw [if_neg h]
      simp only [List.map_cons, List.map_nil, List.foldr_cons, List.foldr_nil,
        AudioLayer.duration, hmax]
  · intro hp hl
    unfold audio_layers
    rw [if_pos ⟨hp, hl⟩, hbg]

/-- Witness for C5 with a 7 s music bed and a 300 s narration. -/
theorem C5_audio_duration_witness :
    (0 : ℚ) < (MusicAsset.mk true true 7).duration ∧ (0 : ℚ) < 300 ∧
    bg_music_duration (MusicAsset.mk true true 7).duration 300 = 300 :=
  ⟨by norm_num [MusicAsset.duration], by norm_num,
    (C5_audio_duration (MusicAsset.mk true true 7) 300 (by norm_num)
      (by norm_num)).1⟩

/-- Claim C9: when the music file is absent or fails to load, the audio layer
list is exactly the narration alone — no silent layer, no error — and the
final audio duration is the narration duration. -/
theorem C9_no_music_narration_only (music : MusicAsset)
    (narration_duration : ℚ)
    (h : music.present = false ∨ music.loads = false) :
    audio_layers music narration_duration
      = [AudioLayer.narration narration_duration] ∧
    final_audio_duration narration_duration = narration_duration ∧
    (0 < narration_duration →
      composite_audio_duration (audio_layers music narration_duration)
        = narration_duration) := by
  have hcond : ¬ (music.present ∧ music.loads) := by
    intro hc
    rcases h with h | h
    · rw [h] at hc
      exact Bool.false_ne_true hc.1
    · rw [h] at hc
      exact Bool.false_ne_true hc.2
  have hl : audio_layers music narration_duration
      = [AudioLayer.narration narration_duration] := by
    unfold audio_layers
    rw [if_neg hcond]
  refine ⟨hl, rfl, fun hn => ?_⟩
  rw [hl]
  unfold composite_audio_duration
  simp only [List.map_cons, List.map_nil, List.foldr_cons, List.foldr_nil,
    AudioLayer.duration]
  exact max_eq_left (le_of_lt hn)

/-- Witness for C9 with a present music file whose load fails. -/
theorem C9_no_music_narration_only_witness :
    ((MusicAsset.mk true false 5).present = false ∨
      (MusicAsset.mk true false 5).loads = false) ∧
    audio_layers (MusicAsset.mk true false 5) 300
      = [AudioLayer.narration 300] :=
  ⟨Or.inr rfl,
    (C9_no_music_narration_only (MusicAsset.mk true false 5) 300
      (Or.inr rfl)).1⟩

/-- Flattening the `range`-indexed blocks of size `n` gives back the list. -/
theorem flatten_range_chunks (n : ℕ) (hn : 0 < n) :
    ∀ (m : ℕ) (l : List String), l.length ≤ m * n →
      ((List.range m).map fun k => (l.drop (k * n)).take n).flatten = l := by
  intro m
  induction m with
  | zero =>
      intro l hl
      simp only [Nat.zero_mul, Nat.le_zero] at hl
      simp [List.eq_nil_of_length_eq_zero hl]
  | succ k ih =>
      intro l hl
      rw [List.range_succ_eq_map]
      simp only [List.map_cons, List.map_map, List.flatten_cons,
        Nat.zero_mul, List.drop_zero]
      have hmap : (List.range k).map
            ((fun i => (l.drop (i * n)).take n) ∘ Nat.succ)
          = (List.range k).map
              fun j => (((l.drop n).drop (j * n)).take n) := by
        apply List.map_congr_left
        intro j _
        simp only [Function.comp_apply]
        rw [List.drop_drop]
        have hidx : Nat.succ j * n = n + j * n := by
          rw [Nat.succ_mul, Nat.add_comm]
        rw [hidx]
      rw [hmap, ih (l.drop n) ?_]
      · exact List.take_append_drop n l
      · rw [List.length_drop]
        apply tsub_le_iff_right.mpr
        rw [Nat.succ_mul] at hl
        exact hl

/-- The chunking loop produces `(W + 29) / 30` chunks. -/
theorem captions_length (words : List String) :
    (captions words).length
      = (words.length + (approx_words_per_caption - 1))
          / approx_words_per_caption := by
  simp [captions]

/-- The chunk count covers all the words. -/
theorem words_length_le_chunks (W : ℕ) :
    W ≤ ((W + (approx_words_per_caption - 1)) / approx_words_per_caption)
          * approx_words_per_caption := by
  simp only [approx_words_per_caption]
  omega

/-- Concatenating the chunks restores the word list: chunking preserves input
order and loses nothing. -/
theorem captions_flatten (words : List String) :
    (captions words).flatten = words := by
  unfold captions
  exact flatten_range_chunks approx_words_per_caption
    (by norm_num [approx_words_per_caption]) _ words
    (words_length_le_chunks words.length)

/-- The Nat chunk count equals the ceiling of `W / 30`. -/
theorem chunk_count_eq_ceil (W : ℕ) :
    (((W + (approx_words_per_caption - 1)) / approx_words_per_caption : ℕ) : ℤ)
      = ⌈(W : ℚ) / (approx_words_per_caption : ℚ)⌉ := by
  rw [show (W + (approx_words_per_caption - 1)) / approx_words_per_caption
      = (W + 29) / 30 from by norm_num [approx_words_per_caption]]
  rw [show ((approx_words_per_caption : ℕ) : ℚ) = (30 : ℚ) from by
      norm_num [approx_words_per_caption]]
  have hub : W ≤ 30 * ((W + 29) / 30) := by omega
  have hlb : 30 * ((W + 29) / 30) < W + 30 := by omega
  have hub2 : (W : ℚ) ≤ 30 * (((((W + 29) / 30 : ℕ) : ℤ)) : ℚ) := by
    exact_mod_cast hub
  have hlb2 : (30 : ℚ) * (((((W + 29) / 30 : ℕ) : ℤ)) : ℚ) < (W : ℚ) + 30 := by
    exact_mod_cast hlb
  symm
  rw [Int.ceil_eq_iff]
  constructor
  · rw [lt_div_iff₀ (by norm_num : (0 : ℚ) < 30)]
    linarith
  · rw [div_le_iff₀ (by norm_num : (0 : ℚ) < 30)]
    linarith

/-- A map whose function is constant is a `replicate`. -/
theorem map_const_eq_replicate {α β : Type} (l : List α) (c : β) :
    (l.map fun _ => c) = List.replicate l.length c := by
  induction l with
  | nil => rfl
  | cons a t ih => simp [ih, List.replicate_succ]

/-- The rendered caption durations: one `cap_dur` per rendered window. -/
theorem caption_clips_durations (words : List String)
    (narration_duration : ℚ) :
    (caption_clips words narration_duration).map CaptionWindow.duration
      = List.replicate (min caption_cap (captions words).length)
          (cap_dur narration_duration (captions words).length) := by
  unfold caption_clips
  rw [List.map_map]
  have : (CaptionWindow.duration ∘ fun p : ℕ × List String =>
      (⟨p.2, (p.1 : ℚ) * cap_dur narration_duration (captions words).length,
        cap_dur narration_duration (captions words).length⟩ : CaptionWindow))
      = fun _ => cap_dur narration_duration (captions words).length := rfl
  rw [this, map_const_eq_replicate, List.enum_length, List.length_take]

/-- Claim C7: for a transcript of `W` words the number of rendered caption
windows is exactly `min(ceil(W/30), 40)`; the chunks preserve the input word
order (flattening them restores the transcript) and chunks beyond the cap are
dropped, not rendered. -/
theorem C7_caption_window_count (words : List String)
    (narration_duration : ℚ) :
    (caption_clips words narration_duration).length
      = min ((words.length + (approx_words_per_caption - 1))
              / approx_words_per_caption) caption_cap ∧
    (((words.length + (approx_words_per_caption - 1))
        / approx_words_per_caption : ℕ) : ℤ)
      = ⌈(words.length : ℚ) / (approx_words_per_caption : ℚ)⌉ ∧
    (captions words).flatten = words ∧
    (caption_clips words narration_duration).map CaptionWindow.text
      = (captions words).take caption_cap := by
  refine ⟨?_, chunk_count_eq_ceil words.length, captions_flatten words, ?_⟩
  · have hlen := congrArg List.length
      (caption_clips_durations words narration_duration)
    rw [List.length_map, List.length_replicate] at hlen
    rw [hlen, captions_length, Nat.min_comm]
  · unfold caption_clips
    rw [List.map_map]
    have hcomp : (CaptionWindow.text ∘ fun p : ℕ × List String =>
        (⟨p.2, (p.1 : ℚ) * cap_dur narration_duration (captions words).length,
          cap_dur narration_duration (captions words).length⟩ : CaptionWindow))
        = Prod.snd := rfl
    rw [hcomp, List.enum_map_snd]

/-- Claim C2 counterexample: a 30-word transcript is one chunk, and with a
narration of 2 s the rendered window's duration is `max(3, 2/1) = 3`, not
`narration_duration / min(N, 40) = 2`. -/
theorem C2_caption_duration_counterexample :
    (caption_clips (List.replicate 30 "w") 2).map CaptionWindow.duration
      = [3] ∧
    (2 : ℚ) / ((min (captions (List.replicate 30 "w")).length caption_cap : ℕ)
        : ℚ) = 2 ∧
    (3 : ℚ) ≠ (2 : ℚ) := by
  have hlen : (captions (List.replicate 30 "w")).length = 1 := by
    rw [captions_length]
    norm_num [approx_words_per_caption, List.length_replicate]
  refine ⟨?_, ?_, by norm_num⟩
  · rw [caption_clips_durations, hlen]
    norm_num [caption_cap, cap_dur]
  · rw [hlen]
    norm_num [caption_cap]

/-- Claim C2 amended: each rendered caption window's duration is
`max(3, narration_duration / N)` where `N` is the total (uncapped) chunk
count; when `N ≤ 40` and `narration_duration / N ≥ 3` this equals
`narration_duration / min(N, 40)` and the rendered window durations sum to
the narration duration exactly. -/
theorem C2_caption_durations (words : List String) (narration_duration : ℚ)
    (h1 : 0 < (captions words).length) :
    (∀ w ∈ caption_clips words narration_duration,
      w.duration
        = max 3 (narration_duration / ((captions words).length : ℚ))) ∧
    ((captions words).length ≤ caption_cap →
      3 ≤ narration_duration / ((captions words).length : ℚ) →
      (∀ w ∈ caption_clips words narration_duration,
        w.duration = narration_duration / ((captions words).length : ℚ)) ∧
      ((caption_clips words narration_duration).map
          CaptionWindow.duration).sum = narration_duration) := by
  have hmax : (max 1 (captions words).length : ℕ)
      = (captions words).length := max_eq_right h1
  have hcap : cap_dur narration_duration (captions words).length
      = max 3 (narration_duration / ((captions words).length : ℚ)) := by
    unfold cap_dur
    rw [hmax]
  have hall : ∀ w ∈ caption_clips words narration_duration,
      w.duration = cap_dur narration_duration (captions words).length := by
    intro w hw
    unfold caption_clips at hw
    rw [List.mem_map] at hw
    obtain ⟨p, _, rfl⟩ := hw
    rfl
  refine ⟨fun w hw => by rw [hall w hw, hcap], fun hle h3 => ?_⟩
  have hdiv : max 3 (narration_duration / ((captions words).length : ℚ))
      = narration_duration / ((captions words).length : ℚ) := max_eq_right h3
  refine ⟨fun w hw => by rw [hall w hw, hcap, hdiv], ?_⟩
  rw [caption_clips_durations, List.sum_replicate, min_eq_right hle, hcap,
    hdiv, nsmul_eq_mul, mul_comm]
  exact div_mul_cancel₀ narration_duration
    (Nat.cast_ne_zero.mpr (Nat.pos_iff_ne_zero.mp h1))

/-- Witness for C2's amended statement: a 60-word transcript (two chunks) and
a 10 s narration give two 5 s windows summing to 10 s. -/
theorem C2_caption_durations_witness :
    0 < (captions (List.replicate 60 "w")).length ∧
    ((caption_clips (List.replicate 60 "w") 10).map
        CaptionWindow.duration).sum = 10 := by
  have hlen : (captions (List.replicate 60 "w")).length = 2 := by
    rw [captions_length]
    norm_num [approx_words_per_caption, List.length_replicate]
  refine ⟨by rw [hlen]; norm_num, ?_⟩
  exact ((C2_caption_durations (List.replicate 60 "w") 10
      (by rw [hlen]; norm_num)).2
    (by rw [hlen]; norm_num [caption_cap]) (by rw [hlen]; norm_num)).2

end AutoVideoBot
